import Mathlib

/-!
Shallow embedding of the PSP on-screen debug console (`src/debug.rs`):
a fixed-capacity ring buffer of text lines (`CharBuffer`) together with
the glyph rasterisation pipeline (`put_char` / `put_str` / `clear_screen`
/ `update`), modelled as pure functions.  Machine bytes are `Nat` values
(always below 256 where the source type is `u8`), the VRAM surface is a
total map from word offsets to pixel values, and the pixel stores made
by a render are collected as an explicit write list.  The array write
`line.chars[line.len] = c`, which panics in Rust when out of bounds, is
embedded as an `Option`-returning guarded write, so `add` is fallible
exactly where the source can panic.
-/

/-- Stride of the VRAM buffer in pixels (`BUFFER_WIDTH`). -/
def BUFFER_WIDTH : Nat := 512

/-- Visible display height in pixels (`DISPLAY_HEIGHT`). -/
def DISPLAY_HEIGHT : Nat := 272

/-- Visible display width in pixels (`DISPLAY_WIDTH`). -/
def DISPLAY_WIDTH : Nat := 480

/-- `MsxFont::CHAR_HEIGHT`: vertical pixel advance between text rows. -/
def CHAR_HEIGHT : Nat := 10

/-- `MsxFont::CHAR_WIDTH`: horizontal pixel advance between text columns. -/
def CHAR_WIDTH : Nat := 6

/-- `ROWS = DISPLAY_HEIGHT / MsxFont::CHAR_HEIGHT` (= 27). -/
def ROWS : Nat := DISPLAY_HEIGHT / CHAR_HEIGHT

/-- `COLS = DISPLAY_WIDTH / MsxFont::CHAR_WIDTH` (= 80). -/
def COLS : Nat := DISPLAY_WIDTH / CHAR_WIDTH

/-- One text line: `struct Line { chars: [u8; COLS], len: usize }`.
The fixed array is a `List Nat`; its length is `COLS` for every line
built by the operations below. -/
structure Line where
  chars : List Nat
  len : Nat
deriving DecidableEq

/-- `Line::new()`: all cells hold the zero sentinel, logical length 0. -/
def Line.new : Line :=
  { chars := List.replicate COLS 0, len := 0 }

/-- `Line::chars[line.len] = c; line.len += 1`, as a guarded (fallible)
write: `none` exactly when the Rust array write would panic. -/
def Line.write (l : Line) (c : Nat) : Option Line :=
  if l.len < l.chars.length then
    some { chars := l.chars.set l.len c, len := l.len + 1 }
  else none

/-- `struct CharBuffer { lines: [Line; ROWS], written: usize, advance_next: bool }`. -/
structure CharBuffer where
  lines : List Line
  written : Nat
  advance_next : Bool
deriving DecidableEq

/-- `CharBuffer::new()`. -/
def CharBuffer.new : CharBuffer :=
  { lines := List.replicate ROWS Line.new, written := 0, advance_next := false }

/-- `CharBuffer::current_line` (read access): `self.lines[self.written % ROWS]`. -/
def CharBuffer.currentLine (b : CharBuffer) : Line :=
  b.lines.getD (b.written % ROWS) Line.new

/-- Store a line back through `current_line`'s `&mut` access. -/
def CharBuffer.setCurrentLine (b : CharBuffer) (l : Line) : CharBuffer :=
  { b with lines := b.lines.set (b.written % ROWS) l }

/-- `CharBuffer::advance`: increment `written`; once `written >= ROWS`,
reset the line at the new active index. -/
def CharBuffer.advance (b : CharBuffer) : CharBuffer :=
  let b1 : CharBuffer := { b with written := b.written + 1 }
  if ROWS ≤ b1.written then b1.setCurrentLine Line.new else b1

/-- The prologue of `CharBuffer::add`: if `advance_next` is set, clear it
and advance. -/
def CharBuffer.checkAdvance (b : CharBuffer) : CharBuffer :=
  if b.advance_next then CharBuffer.advance { b with advance_next := false } else b

/-- The default (`_`) arm of `CharBuffer::add`: wrap when the active line
is full, then write the byte into the active line. -/
def CharBuffer.pushChar (b : CharBuffer) (c : Nat) : Option CharBuffer :=
  let b1 : CharBuffer := if b.currentLine.len = COLS then b.advance else b
  (b1.currentLine.write c).map b1.setCurrentLine

/-- `CharBuffer::add` restricted to the non-tab arms: pending-newline
prologue, then either record a deferred newline or push the byte. -/
def CharBuffer.addNT (b : CharBuffer) (c : Nat) : Option CharBuffer :=
  let b1 := b.checkAdvance
  if c = 10 then some { b1 with advance_next := true }
  else b1.pushChar c

/-- `CharBuffer::add`: a tab expands to four recursive appends of a
space (each of which re-runs the pending-newline prologue); every other
byte goes through the non-tab arms. -/
def CharBuffer.add (b : CharBuffer) (c : Nat) : Option CharBuffer :=
  if c = 9 then
    (b.addNT 32).bind fun b1 =>
      (b1.addNT 32).bind fun b2 =>
        (b2.addNT 32).bind fun b3 => b3.addNT 32
  else b.addNT c

/-- Feed a sequence of bytes to `CharBuffer::add`. -/
def CharBuffer.addAll (b : CharBuffer) (cs : List Nat) : Option CharBuffer :=
  cs.foldlM CharBuffer.add b

/-- Storage index emitted at iterator position `pos`
(`LineIter::next`): plain position before the wrap threshold,
`(written + 1 + pos) % ROWS` after it. -/
def lineIdx (w pos : Nat) : Nat :=
  if ROWS < w then (w + 1 + pos) % ROWS else pos

/-- `struct LineIter { buf, pos }`. -/
structure LineIter where
  buf : CharBuffer
  pos : Nat

/-- `LineIter::next`: yields `min (written + 1) ROWS` lines in total. -/
def LineIter.next (it : LineIter) : Option (Line × LineIter) :=
  if it.pos < min (it.buf.written + 1) ROWS then
    some (it.buf.lines.getD (lineIdx it.buf.written it.pos) Line.new,
          { it with pos := it.pos + 1 })
  else none

/-- Drain an iterator into a list, with enough fuel to exhaust it. -/
def LineIter.collect : Nat → LineIter → List Line
  | 0, _ => []
  | fuel + 1, it =>
    match it.next with
    | some (l, it1) => l :: LineIter.collect fuel it1
    | none => []

/-- `CharBuffer::lines()` drained to a list: the visible-lines sequence.
`ROWS` steps of fuel always exhaust the iterator. -/
def CharBuffer.linesIter (b : CharBuffer) : List Line :=
  LineIter.collect ROWS { buf := b, pos := 0 }

theorem rows_eq : ROWS = 27 := rfl

theorem cols_eq : COLS = 80 := rfl

/-- The raw MSX font: 8 bytes per character, 256 characters; each byte is one glyph row, bit 7 the leftmost pixel column (`MSX_FONT`). -/
def MSX_FONT : List Nat := [
  0, 0, 0, 0, 0, 0, 0, 0, 60, 66, 165, 129, 165, 153, 66, 60,
  60, 126, 219, 255, 255, 219, 102, 60, 108, 254, 254, 254, 124, 56, 16, 0,
  16, 56, 124, 254, 124, 56, 16, 0, 16, 56, 84, 254, 84, 16, 56, 0,
  16, 56, 124, 254, 254, 16, 56, 0, 0, 0, 0, 48, 48, 0, 0, 0,
  255, 255, 255, 231, 231, 255, 255, 255, 56, 68, 130, 130, 130, 68, 56, 0,
  199, 187, 125, 125, 125, 187, 199, 255, 15, 3, 5, 121, 136, 136, 136, 112,
  56, 68, 68, 68, 56, 16, 124, 16, 48, 40, 36, 36, 40, 32, 224, 192,
  60, 36, 60, 36, 36, 228, 220, 24, 16, 84, 56, 238, 56, 84, 16, 0,
  16, 16, 16, 124, 16, 16, 16, 16, 16, 16, 16, 255, 0, 0, 0, 0,
  0, 0, 0, 255, 16, 16, 16, 16, 16, 16, 16, 240, 16, 16, 16, 16,
  16, 16, 16, 31, 16, 16, 16, 16, 16, 16, 16, 255, 16, 16, 16, 16,
  16, 16, 16, 16, 16, 16, 16, 16, 0, 0, 0, 255, 0, 0, 0, 0,
  0, 0, 0, 31, 16, 16, 16, 16, 0, 0, 0, 240, 16, 16, 16, 16,
  16, 16, 16, 31, 0, 0, 0, 0, 16, 16, 16, 240, 0, 0, 0, 0,
  129, 66, 36, 24, 24, 36, 66, 129, 1, 2, 4, 8, 16, 32, 64, 128,
  128, 64, 32, 16, 8, 4, 2, 1, 0, 16, 16, 255, 16, 16, 0, 0,
  0, 0, 0, 0, 0, 0, 0, 0, 32, 32, 32, 32, 0, 0, 32, 0,
  80, 80, 80, 0, 0, 0, 0, 0, 80, 80, 248, 80, 248, 80, 80, 0,
  32, 120, 160, 112, 40, 240, 32, 0, 192, 200, 16, 32, 64, 152, 24, 0,
  64, 160, 64, 168, 144, 152, 96, 0, 16, 32, 64, 0, 0, 0, 0, 0,
  16, 32, 64, 64, 64, 32, 16, 0, 64, 32, 16, 16, 16, 32, 64, 0,
  32, 168, 112, 32, 112, 168, 32, 0, 0, 32, 32, 248, 32, 32, 0, 0,
  0, 0, 0, 0, 0, 32, 32, 64, 0, 0, 0, 120, 0, 0, 0, 0,
  0, 0, 0, 0, 0, 96, 96, 0, 0, 0, 8, 16, 32, 64, 128, 0,
  112, 136, 152, 168, 200, 136, 112, 0, 32, 96, 160, 32, 32, 32, 248, 0,
  112, 136, 8, 16, 96, 128, 248, 0, 112, 136, 8, 48, 8, 136, 112, 0,
  16, 48, 80, 144, 248, 16, 16, 0, 248, 128, 224, 16, 8, 16, 224, 0,
  48, 64, 128, 240, 136, 136, 112, 0, 248, 136, 16, 32, 32, 32, 32, 0,
  112, 136, 136, 112, 136, 136, 112, 0, 112, 136, 136, 120, 8, 16, 96, 0,
  0, 0, 32, 0, 0, 32, 0, 0, 0, 0, 32, 0, 0, 32, 32, 64,
  24, 48, 96, 192, 96, 48, 24, 0, 0, 0, 248, 0, 248, 0, 0, 0,
  192, 96, 48, 24, 48, 96, 192, 0, 112, 136, 8, 16, 32, 0, 32, 0,
  112, 136, 8, 104, 168, 168, 112, 0, 32, 80, 136, 136, 248, 136, 136, 0,
  240, 72, 72, 112, 72, 72, 240, 0, 48, 72, 128, 128, 128, 72, 48, 0,
  224, 80, 72, 72, 72, 80, 224, 0, 248, 128, 128, 240, 128, 128, 248, 0,
  248, 128, 128, 240, 128, 128, 128, 0, 112, 136, 128, 184, 136, 136, 112, 0,
  136, 136, 136, 248, 136, 136, 136, 0, 112, 32, 32, 32, 32, 32, 112, 0,
  56, 16, 16, 16, 144, 144, 96, 0, 136, 144, 160, 192, 160, 144, 136, 0,
  128, 128, 128, 128, 128, 128, 248, 0, 136, 216, 168, 168, 136, 136, 136, 0,
  136, 200, 200, 168, 152, 152, 136, 0, 112, 136, 136, 136, 136, 136, 112, 0,
  240, 136, 136, 240, 128, 128, 128, 0, 112, 136, 136, 136, 168, 144, 104, 0,
  240, 136, 136, 240, 160, 144, 136, 0, 112, 136, 128, 112, 8, 136, 112, 0,
  248, 32, 32, 32, 32, 32, 32, 0, 136, 136, 136, 136, 136, 136, 112, 0,
  136, 136, 136, 136, 80, 80, 32, 0, 136, 136, 136, 168, 168, 216, 136, 0,
  136, 136, 80, 32, 80, 136, 136, 0, 136, 136, 136, 112, 32, 32, 32, 0,
  248, 8, 16, 32, 64, 128, 248, 0, 112, 64, 64, 64, 64, 64, 112, 0,
  0, 0, 128, 64, 32, 16, 8, 0, 112, 16, 16, 16, 16, 16, 112, 0,
  32, 80, 136, 0, 0, 0, 0, 0, 0, 0, 0, 0, 0, 0, 248, 0,
  64, 32, 16, 0, 0, 0, 0, 0, 0, 0, 112, 8, 120, 136, 120, 0,
  128, 128, 176, 200, 136, 200, 176, 0, 0, 0, 112, 136, 128, 136, 112, 0,
  8, 8, 104, 152, 136, 152, 104, 0, 0, 0, 112, 136, 248, 128, 112, 0,
  16, 40, 32, 248, 32, 32, 32, 0, 0, 0, 104, 152, 152, 104, 8, 112,
  128, 128, 240, 136, 136, 136, 136, 0, 32, 0, 96, 32, 32, 32, 112, 0,
  16, 0, 48, 16, 16, 16, 144, 96, 64, 64, 72, 80, 96, 80, 72, 0,
  96, 32, 32, 32, 32, 32, 112, 0, 0, 0, 208, 168, 168, 168, 168, 0,
  0, 0, 176, 200, 136, 136, 136, 0, 0, 0, 112, 136, 136, 136, 112, 0,
  0, 0, 176, 200, 200, 176, 128, 128, 0, 0, 104, 152, 152, 104, 8, 8,
  0, 0, 176, 200, 128, 128, 128, 0, 0, 0, 120, 128, 240, 8, 240, 0,
  64, 64, 240, 64, 64, 72, 48, 0, 0, 0, 144, 144, 144, 144, 104, 0,
  0, 0, 136, 136, 136, 80, 32, 0, 0, 0, 136, 168, 168, 168, 80, 0,
  0, 0, 136, 80, 32, 80, 136, 0, 0, 0, 136, 136, 152, 104, 8, 112,
  0, 0, 248, 16, 32, 64, 248, 0, 24, 32, 32, 64, 32, 32, 24, 0,
  32, 32, 32, 0, 32, 32, 32, 0, 192, 32, 32, 16, 32, 32, 192, 0,
  64, 168, 16, 0, 0, 0, 0, 0, 0, 0, 32, 80, 248, 0, 0, 0,
  112, 136, 128, 128, 136, 112, 32, 96, 144, 0, 0, 144, 144, 144, 104, 0,
  16, 32, 112, 136, 248, 128, 112, 0, 32, 80, 112, 8, 120, 136, 120, 0,
  72, 0, 112, 8, 120, 136, 120, 0, 32, 16, 112, 8, 120, 136, 120, 0,
  32, 0, 112, 8, 120, 136, 120, 0, 0, 112, 128, 128, 128, 112, 16, 96,
  32, 80, 112, 136, 248, 128, 112, 0, 80, 0, 112, 136, 248, 128, 112, 0,
  32, 16, 112, 136, 248, 128, 112, 0, 80, 0, 0, 96, 32, 32, 112, 0,
  32, 80, 0, 96, 32, 32, 112, 0, 64, 32, 0, 96, 32, 32, 112, 0,
  80, 0, 32, 80, 136, 248, 136, 0, 32, 0, 32, 80, 136, 248, 136, 0,
  16, 32, 248, 128, 240, 128, 248, 0, 0, 0, 108, 18, 126, 144, 110, 0,
  62, 80, 144, 156, 240, 144, 158, 0, 96, 144, 0, 96, 144, 144, 96, 0,
  144, 0, 0, 96, 144, 144, 96, 0, 64, 32, 0, 96, 144, 144, 96, 0,
  64, 160, 0, 160, 160, 160, 80, 0, 64, 32, 0, 160, 160, 160, 80, 0,
  144, 0, 144, 144, 176, 80, 16, 224, 80, 0, 112, 136, 136, 136, 112, 0,
  80, 0, 136, 136, 136, 136, 112, 0, 32, 32, 120, 128, 128, 120, 32, 32,
  24, 36, 32, 248, 32, 226, 92, 0, 136, 80, 32, 248, 32, 248, 32, 0,
  192, 160, 160, 200, 156, 136, 136, 140, 24, 32, 32, 248, 32, 32, 32, 64,
  16, 32, 112, 8, 120, 136, 120, 0, 16, 32, 0, 96, 32, 32, 112, 0,
  32, 64, 0, 96, 144, 144, 96, 0, 32, 64, 0, 144, 144, 144, 104, 0,
  80, 160, 0, 160, 208, 144, 144, 0, 40, 80, 0, 200, 168, 152, 136, 0,
  0, 112, 8, 120, 136, 120, 0, 248, 0, 96, 144, 144, 144, 96, 0, 240,
  32, 0, 32, 64, 128, 136, 112, 0, 0, 0, 0, 248, 128, 128, 0, 0,
  0, 0, 0, 248, 8, 8, 0, 0, 132, 136, 144, 168, 84, 132, 8, 28,
  132, 136, 144, 168, 88, 168, 60, 8, 32, 0, 0, 32, 32, 32, 32, 0,
  0, 0, 36, 72, 144, 72, 36, 0, 0, 0, 144, 72, 36, 72, 144, 0,
  40, 80, 32, 80, 136, 248, 136, 0, 40, 80, 112, 8, 120, 136, 120, 0,
  40, 80, 0, 112, 32, 32, 112, 0, 40, 80, 0, 32, 32, 32, 112, 0,
  40, 80, 0, 112, 136, 136, 112, 0, 80, 160, 0, 96, 144, 144, 96, 0,
  40, 80, 0, 136, 136, 136, 112, 0, 80, 160, 0, 160, 160, 160, 80, 0,
  252, 72, 72, 72, 232, 8, 80, 32, 0, 80, 0, 80, 80, 80, 16, 32,
  192, 68, 200, 84, 236, 84, 158, 4, 16, 168, 64, 0, 0, 0, 0, 0,
  0, 32, 80, 136, 80, 32, 0, 0, 136, 16, 32, 64, 128, 40, 0, 0,
  124, 168, 168, 104, 40, 40, 40, 0, 56, 64, 48, 72, 72, 48, 8, 112,
  0, 0, 0, 0, 0, 0, 255, 255, 240, 240, 240, 240, 15, 15, 15, 15,
  0, 0, 255, 255, 255, 255, 255, 255, 255, 255, 0, 0, 0, 0, 0, 0,
  0, 0, 0, 60, 60, 0, 0, 0, 255, 255, 255, 255, 255, 255, 0, 0,
  192, 192, 192, 192, 192, 192, 192, 192, 15, 15, 15, 15, 240, 240, 240, 240,
  252, 252, 252, 252, 252, 252, 252, 252, 3, 3, 3, 3, 3, 3, 3, 3,
  63, 63, 63, 63, 63, 63, 63, 63, 17, 34, 68, 136, 17, 34, 68, 136,
  136, 68, 34, 17, 136, 68, 34, 17, 254, 124, 56, 16, 0, 0, 0, 0,
  0, 0, 0, 0, 16, 56, 124, 254, 128, 192, 224, 240, 224, 192, 128, 0,
  1, 3, 7, 15, 7, 3, 1, 0, 255, 126, 60, 24, 24, 60, 126, 255,
  129, 195, 231, 255, 255, 231, 195, 129, 240, 240, 240, 240, 0, 0, 0, 0,
  0, 0, 0, 0, 15, 15, 15, 15, 15, 15, 15, 15, 0, 0, 0, 0,
  0, 0, 0, 0, 240, 240, 240, 240, 51, 51, 204, 204, 51, 51, 204, 204,
  0, 32, 32, 80, 80, 136, 248, 0, 32, 32, 112, 32, 112, 32, 32, 0,
  0, 0, 0, 80, 136, 168, 80, 0, 255, 255, 255, 255, 255, 255, 255, 255,
  0, 0, 0, 0, 255, 255, 255, 255, 240, 240, 240, 240, 240, 240, 240, 240,
  15, 15, 15, 15, 15, 15, 15, 15, 255, 255, 255, 255, 0, 0, 0, 0,
  0, 0, 104, 144, 144, 144, 104, 0, 48, 72, 72, 112, 72, 72, 112, 192,
  248, 136, 128, 128, 128, 128, 128, 0, 248, 80, 80, 80, 80, 80, 152, 0,
  248, 136, 64, 32, 64, 136, 248, 0, 0, 0, 120, 144, 144, 144, 96, 0,
  0, 80, 80, 80, 80, 104, 128, 128, 0, 80, 160, 32, 32, 32, 32, 0,
  248, 32, 112, 168, 168, 112, 32, 248, 32, 80, 136, 248, 136, 80, 32, 0,
  112, 136, 136, 136, 80, 80, 216, 0, 48, 64, 64, 32, 80, 80, 80, 32,
  0, 0, 0, 80, 168, 168, 80, 0, 8, 112, 168, 168, 168, 112, 128, 0,
  56, 64, 128, 248, 128, 64, 56, 0, 112, 136, 136, 136, 136, 136, 136, 0,
  0, 248, 0, 248, 0, 248, 0, 0, 32, 32, 248, 32, 32, 0, 248, 0,
  192, 48, 8, 48, 192, 0, 248, 0, 24, 96, 128, 96, 24, 0, 248, 0,
  16, 40, 32, 32, 32, 32, 32, 32, 32, 32, 32, 32, 32, 32, 160, 64,
  0, 32, 0, 248, 0, 32, 0, 0, 0, 80, 160, 0, 80, 160, 0, 0,
  0, 24, 36, 36, 24, 0, 0, 0, 0, 48, 120, 120, 48, 0, 0, 0,
  0, 0, 0, 0, 48, 0, 0, 0, 62, 32, 32, 32, 160, 96, 32, 0,
  160, 80, 80, 80, 0, 0, 0, 0, 64, 160, 32, 64, 224, 0, 0, 0,
  0, 56, 56, 56, 56, 56, 56, 0, 0, 0, 0, 0, 0, 0, 0, 0]

/-- `MsxFont::put_char x y color c`: the pixel stores it performs, as
`(word offset, value)` pairs.  The walked pointer visits offset
`x + j + (y + i) * BUFFER_WIDTH` at glyph row `i`, column `j`, and
stores `color` there exactly when bit `7 - j` of `MSX_FONT[c * 8 + i]`
is set. -/
def putCharWrites (x y color c : Nat) : List (Nat × Nat) :=
  (List.range 8).flatMap fun i =>
    (List.range 8).filterMap fun j =>
      if MSX_FONT.getD (c * 8 + i) 0 &&& (128 >>> j) ≠ 0 then
        some (x + j + (y + i) * BUFFER_WIDTH, color)
      else none

/-- `put_str s x y color`: nothing if `y > DISPLAY_HEIGHT`; otherwise
paint each byte of `s` (stopping at column `DISPLAY_WIDTH / CHAR_WIDTH`)
that is `≤ 255` and nonzero, at `x`-offset `CHAR_WIDTH * i`. -/
def putStrWrites (s : List Nat) (x y color : Nat) : List (Nat × Nat) :=
  if DISPLAY_HEIGHT < y then []
  else
    (s.take (DISPLAY_WIDTH / CHAR_WIDTH)).enum.flatMap fun ic =>
      if ic.2 ≤ 255 ∧ ic.2 ≠ 0 then
        putCharWrites (CHAR_WIDTH * ic.1 + x) y color ic.2
      else []

/-- `clear_screen color`: store `color` into each of the
`BUFFER_WIDTH * DISPLAY_HEIGHT` words of the surface. -/
def clearWrites (color : Nat) : List (Nat × Nat) :=
  (List.range (BUFFER_WIDTH * DISPLAY_HEIGHT)).map fun i => (i, color)

/-- The glyph-painting pass of `update`: each visible line `i` is drawn
from its occupied cells `chars[0..len]` at `(0, i * CHAR_HEIGHT)` in
color `0xffffffff`. -/
def updateGlyphWrites (b : CharBuffer) : List (Nat × Nat) :=
  b.linesIter.enum.flatMap fun il =>
    putStrWrites (il.2.chars.take il.2.len) 0 (il.1 * CHAR_HEIGHT) 0xffffffff

/-- All pixel stores of one `update` call: the clear pass with color 0,
then the glyph pass. -/
def updateWrites (b : CharBuffer) : List (Nat × Nat) :=
  clearWrites 0 ++ updateGlyphWrites b

/-- Replay a write list onto a surface (a total map from word offset to
pixel value), later writes overriding earlier ones. -/
def applyWrites (ws : List (Nat × Nat)) (s : Nat → Nat) : Nat → Nat :=
  ws.foldl (fun s1 w => fun p => if p = w.1 then w.2 else s1 p) s

/-- `update`: the surface after one render of buffer `b` over surface `s`. -/
def update (b : CharBuffer) (s : Nat → Nat) : Nat → Nat :=
  applyWrites (updateWrites b) s

/-- The value of the last write to offset `p` in a write list, if any. -/
def findLast (ws : List (Nat × Nat)) (p : Nat) : Option Nat :=
  match ws with
  | [] => none
  | w :: rest => (findLast rest p).orElse fun _ =>
      if w.1 = p then some w.2 else none

lemma applyWrites_nil (s : Nat → Nat) : applyWrites [] s = s := rfl

lemma applyWrites_cons (w : Nat × Nat) (ws : List (Nat × Nat)) (s : Nat → Nat) :
    applyWrites (w :: ws) s = applyWrites ws (fun p => if p = w.1 then w.2 else s p) := rfl

/-- A replayed write list reads back as the last write at each offset,
falling back to the underlying surface. -/
lemma applyWrites_eq_findLast (ws : List (Nat × Nat)) :
    ∀ (s : Nat → Nat) (p : Nat), applyWrites ws s p = (findLast ws p).getD (s p) := by
  induction ws with
  | nil => intro s p; rfl
  | cons w ws ih =>
    intro s p
    rw [applyWrites_cons, ih]
    show _ = ((findLast ws p).orElse fun _ => if w.1 = p then some w.2 else none).getD (s p)
    cases h : findLast ws p with
    | some v => simp [h, Option.orElse]
    | none =>
      by_cases hw : w.1 = p
      · simp [h, hw, Option.orElse]
      · have hw' : ¬ p = w.1 := fun hc => hw hc.symm
        simp [h, hw, hw', Option.orElse]

/-- Claim C6: render is idempotent.  Running `update` twice on the same
buffer with no intervening append leaves the surface with exactly the
pixel contents the first `update` produced: the write list depends only
on the buffer, so replaying it a second time reproduces the same
surface. -/
theorem c6_update_idempotent (b : CharBuffer) (s : Nat → Nat) :
    update b (update b s) = update b s := by
  funext p
  rw [update, update, applyWrites_eq_findLast, applyWrites_eq_findLast]
  cases h : findLast (updateWrites b) p <;> simp [h]

/-- Draining `fuel` steps of the line iterator from position `pos`,
when the fuel reaches the end of the sequence, yields the lines at
storage indices `lineIdx written q` for `q` ranging over the remaining
positions. -/
lemma collect_eq (b : CharBuffer) :
    ∀ fuel pos, min (b.written + 1) ROWS ≤ pos + fuel →
      LineIter.collect fuel { buf := b, pos := pos } =
        (List.range' pos (min (b.written + 1) ROWS - pos)).map
          fun q => b.lines.getD (lineIdx b.written q) Line.new := by
  intro fuel
  induction fuel with
  | zero =>
    intro pos h
    have h0 : min (b.written + 1) ROWS - pos = 0 := by omega
    simp [LineIter.collect, h0]
  | succ n ih =>
    intro pos h
    by_cases hp : pos < min (b.written + 1) ROWS
    · have hsplit : min (b.written + 1) ROWS - pos
          = (min (b.written + 1) ROWS - (pos + 1)) + 1 := by omega
      rw [hsplit, List.range'_succ, List.map_cons]
      show LineIter.collect (n + 1) { buf := b, pos := pos } = _
      rw [LineIter.collect]
      simp only [LineIter.next, hp, if_pos]
      exact congrArg _ (ih (pos + 1) (by omega))
    · have h0 : min (b.written + 1) ROWS - pos = 0 := by omega
      rw [h0]
      show LineIter.collect (n + 1) { buf := b, pos := pos } = _
      rw [LineIter.collect]
      simp [LineIter.next, hp]

/-- The visible-lines sequence, in closed form. -/
lemma linesIter_eq (b : CharBuffer) :
    b.linesIter = (List.range (min (b.written + 1) ROWS)).map
      fun q => b.lines.getD (lineIdx b.written q) Line.new := by
  rw [CharBuffer.linesIter, collect_eq b ROWS 0 (by omega)]
  rw [List.range_eq_range', Nat.sub_zero]

lemma linesIter_length (b : CharBuffer) :
    b.linesIter.length = min (b.written + 1) ROWS := by
  rw [linesIter_eq]; simp

lemma linesIter_getD (b : CharBuffer) (pos : Nat)
    (h : pos < min (b.written + 1) ROWS) :
    b.linesIter.getD pos Line.new = b.lines.getD (lineIdx b.written pos) Line.new := by
  rw [linesIter_eq]
  rw [List.getD_eq_getElem?_getD, List.getElem?_map, List.getElem?_range h]
  rfl

/-- For a slot index `i < ROWS` of a buffer whose counter is `w`: the
largest counter value `c ≤ w` with `c % ROWS = i`.  Under the counter
model (the active slot at counter value `c` is `c % ROWS`), this is the
advance step at which slot `i` was most recently entered, so it orders
the slots from oldest surviving to most recently written. -/
def lastWrite (w i : Nat) : Nat := w - ((w + ROWS - i) % ROWS)

lemma lastWrite_spec (w i : Nat) (hw : ROWS ≤ w) (hi : i < ROWS) :
    lastWrite w i ≤ w ∧ lastWrite w i % ROWS = i
      ∧ ∀ c, c ≤ w → c % ROWS = i → c ≤ lastWrite w i := by
  unfold lastWrite
  rw [rows_eq] at hw hi ⊢
  refine ⟨by omega, by omega, fun c h1 h2 => by omega⟩

/-- In the wrapped regime, the slot emitted at iterator position `pos`
was last entered at advance step `written + 1 + pos - ROWS`: emission
position strictly tracks the age of the slot. -/
lemma lastWrite_lineIdx (w pos : Nat) (hw : ROWS < w) (hp : pos < ROWS) :
    lastWrite w (lineIdx w pos) = w + 1 + pos - ROWS := by
  unfold lastWrite lineIdx
  rw [if_pos hw]
  rw [rows_eq] at hw hp ⊢
  omega

/-- Claim C2: the visible-lines sequence has exactly
`min (written + 1) ROWS` entries; the entry at position `pos` is the
stored line at index `pos` while `written ≤ ROWS`, and at index
`(written + 1 + pos) % ROWS` once `written > ROWS`.  In the wrapped
regime the first emitted slot is `(written + 1) % ROWS`, the last is
the active slot `written % ROWS`, and emission position strictly
increases the step (`lastWrite`) at which the slot was most recently
entered, so the oldest surviving line comes first and the most recently
written line last. -/
theorem c2_visible_lines_indexing (b : CharBuffer) :
    b.linesIter.length = min (b.written + 1) ROWS
    ∧ (∀ pos, pos < min (b.written + 1) ROWS →
        b.linesIter.getD pos Line.new = b.lines.getD (lineIdx b.written pos) Line.new
        ∧ lineIdx b.written pos
            = (if ROWS < b.written then (b.written + 1 + pos) % ROWS else pos))
    ∧ (ROWS < b.written →
        lineIdx b.written 0 = (b.written + 1) % ROWS
        ∧ lineIdx b.written (ROWS - 1) = b.written % ROWS
        ∧ ∀ p1 p2, p1 < p2 → p2 < ROWS →
            lastWrite b.written (lineIdx b.written p1)
              < lastWrite b.written (lineIdx b.written p2)) := by
  refine ⟨linesIter_length b, fun pos h => ⟨linesIter_getD b pos h, rfl⟩, fun hw => ⟨?_, ?_, ?_⟩⟩
  · rw [lineIdx, if_pos hw]
  · rw [lineIdx, if_pos hw]
    rw [rows_eq] at hw ⊢
    omega
  · intro p1 p2 h12 h2
    rw [lastWrite_lineIdx b.written p1 hw (by omega),
        lastWrite_lineIdx b.written p2 hw h2]
    rw [rows_eq] at hw h2 ⊢
    omega

/-- A concrete buffer in the wrapped regime (`written = 30 > ROWS`). -/
def wrappedBuf : CharBuffer :=
  { lines := List.replicate ROWS Line.new, written := 30, advance_next := false }

theorem c2_visible_lines_indexing_witness :
    wrappedBuf.linesIter.length = min (wrappedBuf.written + 1) ROWS
    ∧ lineIdx wrappedBuf.written 0 = (wrappedBuf.written + 1) % ROWS
    ∧ lineIdx wrappedBuf.written (ROWS - 1) = wrappedBuf.written % ROWS :=
  ⟨(c2_visible_lines_indexing wrappedBuf).1,
   ((c2_visible_lines_indexing wrappedBuf).2.2 (by decide)).1,
   ((c2_visible_lines_indexing wrappedBuf).2.2 (by decide)).2.1⟩

lemma rows_pos : 0 < ROWS := by decide

lemma cols_pos : 0 < COLS := by decide

/-- The state invariant of the buffer: `ROWS` stored lines, every line
within the `COLS` bound with its backing array of length `COLS`, and —
while the buffer has not yet wrapped — the lines the cursor has not
reached yet are still empty. -/
def BufInv (b : CharBuffer) : Prop :=
  b.lines.length = ROWS
  ∧ (∀ l ∈ b.lines, l.len ≤ COLS ∧ l.chars.length = COLS)
  ∧ (∀ i, b.written < i → i < ROWS → (b.lines.getD i Line.new).len = 0)

lemma inv_new : BufInv CharBuffer.new := by
  refine ⟨by simp [CharBuffer.new], ?_, ?_⟩
  · intro l hl
    rw [List.eq_of_mem_replicate hl]
    exact ⟨Nat.zero_le _, by simp [Line.new]⟩
  · intro i h1 h2
    rw [CharBuffer.new, List.getD_eq_getElem?_getD, List.getElem?_replicate]
    simp [h2, Line.new]

lemma currentLine_mem (b : CharBuffer) (h : b.lines.length = ROWS) :
    b.currentLine ∈ b.lines := by
  have hlt : b.written % ROWS < b.lines.length := by
    rw [h]; exact Nat.mod_lt _ rows_pos
  rw [CharBuffer.currentLine, List.getD_eq_getElem _ _ hlt]
  exact List.getElem_mem hlt

lemma advance_written (b : CharBuffer) : b.advance.written = b.written + 1 := by
  rw [CharBuffer.advance]; split <;> rfl

lemma advance_flag (b : CharBuffer) : b.advance.advance_next = b.advance_next := by
  rw [CharBuffer.advance]; split <;> rfl

lemma advance_lines (b : CharBuffer) :
    b.advance.lines = if ROWS ≤ b.written + 1 then
      b.lines.set ((b.written + 1) % ROWS) Line.new else b.lines := by
  rw [CharBuffer.advance]
  split <;> rfl

lemma inv_advance (b : CharBuffer) (hb : BufInv b) :
    BufInv b.advance ∧ b.advance.currentLine.len = 0 := by
  obtain ⟨hlen, hmem, hfresh⟩ := hb
  have hcur : b.advance.currentLine
      = b.advance.lines.getD ((b.written + 1) % ROWS) Line.new := by
    rw [CharBuffer.currentLine, advance_written]
  by_cases hw : ROWS ≤ b.written + 1
  · have hlines : b.advance.lines = b.lines.set ((b.written + 1) % ROWS) Line.new := by
      rw [advance_lines, if_pos hw]
    have hidx : (b.written + 1) % ROWS < b.lines.length := by
      rw [hlen]; exact Nat.mod_lt _ rows_pos
    refine ⟨⟨by rw [hlines, List.length_set]; exact hlen, ?_, ?_⟩, ?_⟩
    · intro l hl
      rw [hlines] at hl
      rcases List.mem_or_eq_of_mem_set hl with h | h
      · exact hmem l h
      · rw [h]; exact ⟨Nat.zero_le _, by simp [Line.new]⟩
    · intro i h1 h2
      rw [advance_written] at h1
      omega
    · have hidx' : (b.written + 1) % ROWS < (b.lines.set ((b.written + 1) % ROWS) Line.new).length := by
        rw [List.length_set]; exact hidx
      rw [hcur, hlines, List.getD_eq_getElem _ _ hidx', List.getElem_set_self]
      rfl
  · have hlines : b.advance.lines = b.lines := by rw [advance_lines, if_neg hw]
    have hmod : (b.written + 1) % ROWS = b.written + 1 := Nat.mod_eq_of_lt (by omega)
    refine ⟨⟨by rw [hlines]; exact hlen, by rw [hlines]; exact hmem, ?_⟩, ?_⟩
    · intro i h1 h2
      rw [advance_written] at h1
      rw [hlines]
      exact hfresh i (by omega) h2
    · rw [hcur, hlines, hmod]
      exact hfresh (b.written + 1) (by omega) (by omega)

lemma checkAdvance_cases (b : CharBuffer) :
    (b.advance_next = false ∧ b.checkAdvance = b) ∨
    (b.advance_next = true ∧
      b.checkAdvance = CharBuffer.advance { b with advance_next := false }) := by
  rw [CharBuffer.checkAdvance]
  by_cases hf : b.advance_next
  · right; rw [if_pos hf]; exact ⟨hf, rfl⟩
  · left; rw [if_neg hf]; exact ⟨by simpa using hf, rfl⟩

lemma inv_checkAdvance (b : CharBuffer) (hb : BufInv b) : BufInv b.checkAdvance := by
  rcases checkAdvance_cases b with ⟨_, h⟩ | ⟨_, h⟩
  · rw [h]; exact hb
  · rw [h]
    exact (inv_advance { b with advance_next := false } hb).1

lemma setCurrentLine_written (b : CharBuffer) (l : Line) :
    (b.setCurrentLine l).written = b.written := rfl

lemma setCurrentLine_flag (b : CharBuffer) (l : Line) :
    (b.setCurrentLine l).advance_next = b.advance_next := rfl

lemma inv_setCurrentLine (b : CharBuffer) (l : Line) (hb : BufInv b)
    (hl1 : l.len ≤ COLS) (hl2 : l.chars.length = COLS) :
    BufInv (b.setCurrentLine l) := by
  obtain ⟨hlen, hmem, hfresh⟩ := hb
  refine ⟨?_, ?_, ?_⟩
  · show (b.lines.set (b.written % ROWS) l).length = ROWS
    rw [List.length_set]; exact hlen
  · intro x hx
    rcases List.mem_or_eq_of_mem_set hx with h | h
    · exact hmem x h
    · rw [h]; exact ⟨hl1, hl2⟩
  · intro i h1 h2
    rw [setCurrentLine_written] at h1
    show ((b.lines.set (b.written % ROWS) l).getD i Line.new).len = 0
    have hne : b.written % ROWS ≠ i := by
      by_cases hwlt : b.written < ROWS
      · rw [Nat.mod_eq_of_lt hwlt]; omega
      · have := Nat.mod_lt b.written rows_pos
        omega
    have hi : i < b.lines.length := by rw [hlen]; exact h2
    have hi' : i < (b.lines.set (b.written % ROWS) l).length := by
      rw [List.length_set]; exact hi
    rw [List.getD_eq_getElem _ _ hi', List.getElem_set_ne hne,
        ← List.getD_eq_getElem _ Line.new hi]
    exact hfresh i h1 h2

/-- The in-bounds write: on an invariant state whose active line is not
full, the guarded array store succeeds and keeps the invariant. -/
lemma write_setCurrentLine (bb : CharBuffer) (c : Nat) (hbb : BufInv bb)
    (hlt : bb.currentLine.len < COLS) :
    ∃ nl, bb.currentLine.write c = some nl ∧ BufInv (bb.setCurrentLine nl) := by
  have hchars : bb.currentLine.chars.length = COLS :=
    (hbb.2.1 _ (currentLine_mem bb hbb.1)).2
  refine ⟨_, by rw [Line.write, if_pos (by rw [hchars]; exact hlt)], ?_⟩
  exact inv_setCurrentLine bb _ hbb (by simp only []; omega) (by simp [hchars])

/-- On an invariant state `pushChar` always succeeds (the guarded array
write is in bounds) and preserves the invariant. -/
lemma pushChar_some (b : CharBuffer) (c : Nat) (hb : BufInv b) :
    ∃ b2, b.pushChar c = some b2 ∧ BufInv b2
      ∧ b2.written = (if b.currentLine.len = COLS then b.written + 1 else b.written)
      ∧ b2.advance_next = b.advance_next := by
  rw [CharBuffer.pushChar]
  by_cases hfull : b.currentLine.len = COLS
  · rw [if_pos hfull]
    simp only [if_pos hfull]
    obtain ⟨hadv, hlen0⟩ := inv_advance b hb
    obtain ⟨nl, hwr, hinv⟩ := write_setCurrentLine b.advance c hadv
      (by rw [hlen0]; exact cols_pos)
    refine ⟨_, by rw [hwr]; rfl, hinv, ?_, ?_⟩
    · rw [setCurrentLine_written, advance_written]
    · rw [setCurrentLine_flag, advance_flag]
  · rw [if_neg hfull]
    simp only [if_neg hfull]
    have hle : b.currentLine.len ≤ COLS := (hb.2.1 _ (currentLine_mem b hb.1)).1
    obtain ⟨nl, hwr, hinv⟩ := write_setCurrentLine b c hb (by omega)
    exact ⟨_, by rw [hwr]; rfl, hinv, rfl, rfl⟩

lemma addNT_some (b : CharBuffer) (c : Nat) (hb : BufInv b) :
    ∃ b2, b.addNT c = some b2 ∧ BufInv b2 := by
  rw [CharBuffer.addNT]
  have hb1 : BufInv b.checkAdvance := inv_checkAdvance b hb
  by_cases hc : c = 10
  · rw [if_pos hc]
    exact ⟨_, rfl, hb1⟩
  · rw [if_neg hc]
    obtain ⟨b2, h2, hinv, _, _⟩ := pushChar_some b.checkAdvance c hb1
    exact ⟨b2, h2, hinv⟩

lemma add_some (b : CharBuffer) (c : Nat) (hb : BufInv b) :
    ∃ b2, b.add c = some b2 ∧ BufInv b2 := by
  rw [CharBuffer.add]
  by_cases hc : c = 9
  · rw [if_pos hc]
    obtain ⟨b1, h1, hi1⟩ := addNT_some b 32 hb
    obtain ⟨b2, h2, hi2⟩ := addNT_some b1 32 hi1
    obtain ⟨b3, h3, hi3⟩ := addNT_some b2 32 hi2
    obtain ⟨b4, h4, hi4⟩ := addNT_some b3 32 hi3
    rw [h1]
    show ∃ x, (b1.addNT 32).bind _ = some x ∧ BufInv x
    rw [h2]
    show ∃ x, (b2.addNT 32).bind _ = some x ∧ BufInv x
    rw [h3]
    exact ⟨b4, h4, hi4⟩
  · rw [if_neg hc]
    exact addNT_some b c hb

lemma addAll_some : ∀ (cs : List Nat) (b : CharBuffer), BufInv b →
    ∃ b2, b.addAll cs = some b2 ∧ BufInv b2 := by
  intro cs
  induction cs with
  | nil => intro b hb; exact ⟨b, rfl, hb⟩
  | cons c cs ih =>
    intro b hb
    obtain ⟨b1, h1, hi1⟩ := add_some b c hb
    obtain ⟨b2, h2, hi2⟩ := ih b1 hi1
    refine ⟨b2, ?_, hi2⟩
    rw [CharBuffer.addAll, List.foldlM_cons]
    show (b.add c).bind _ = some b2
    rw [h1]
    exact h2

lemma addAll_inv (cs : List Nat) (b b2 : CharBuffer)
    (h : b.addAll cs = some b2) (hb : BufInv b) : BufInv b2 := by
  obtain ⟨b2', h', hi⟩ := addAll_some cs b hb
  rw [h] at h'
  cases h'
  exact hi

/-- Claim C3: starting from the fresh buffer, after any byte sequence
has been appended (hence, after every individual append), every stored
line's logical length is at most `COLS` and the visible-lines sequence
has at most `ROWS` entries. -/
theorem c3_length_invariant (cs : List Nat) (b : CharBuffer)
    (h : CharBuffer.new.addAll cs = some b) :
    (∀ l ∈ b.lines, l.len ≤ COLS) ∧ b.linesIter.length ≤ ROWS := by
  have hb := addAll_inv cs CharBuffer.new b h inv_new
  refine ⟨fun l hl => (hb.2.1 l hl).1, ?_⟩
  rw [linesIter_length]
  exact Nat.min_le_right _ _

theorem c3_length_invariant_witness :
    CharBuffer.new.addAll [104, 105] = some ((CharBuffer.new.addAll [104, 105]).getD CharBuffer.new)
    ∧ (∀ l ∈ ((CharBuffer.new.addAll [104, 105]).getD CharBuffer.new).lines, l.len ≤ COLS)
    ∧ ((CharBuffer.new.addAll [104, 105]).getD CharBuffer.new).linesIter.length ≤ ROWS := by
  refine ⟨by decide, ?_, ?_⟩
  · exact (c3_length_invariant [104, 105] _ (by decide)).1
  · exact (c3_length_invariant [104, 105] _ (by decide)).2

/-- A buffer state is reachable when some byte sequence fed to the
fresh buffer produces it. -/
def Reachable (b : CharBuffer) : Prop :=
  ∃ cs, CharBuffer.new.addAll cs = some b

/-- Claim C8: on every reachable buffer state, `add` succeeds for every
byte value: the guarded embedding of the array store never fails, and
the newline and tab arms always produce a state. -/
theorem c8_add_total (b : CharBuffer) (c : Nat) (h : Reachable b) :
    ∃ b2, b.add c = some b2 := by
  obtain ⟨cs, hcs⟩ := h
  have hb := addAll_inv cs CharBuffer.new b hcs inv_new
  obtain ⟨b2, h2, _⟩ := add_some b c hb
  exact ⟨b2, h2⟩

theorem c8_add_total_witness :
    Reachable CharBuffer.new ∧ ∃ b2, CharBuffer.new.add 9 = some b2 :=
  ⟨⟨[], rfl⟩, c8_add_total CharBuffer.new 9 ⟨[], rfl⟩⟩

/-- Claim C5: a tab is observably equivalent to four spaces.  The two
resulting buffer states are equal outright (the tab arm of `add` is the
four-fold space append, each individually re-consulting the
pending-newline flag), so in particular line lengths and every rendered
surface agree. -/
theorem c5_tab_four_spaces (b : CharBuffer) :
    b.add 9 = ((b.add 32).bind fun b1 =>
        (b1.add 32).bind fun b2 => (b2.add 32).bind fun b3 => b3.add 32)
    ∧ ∀ s : Nat → Nat,
        (b.add 9).map (fun b2 => update b2 s)
          = (((b.add 32).bind fun b1 =>
              (b1.add 32).bind fun b2 => (b2.add 32).bind fun b3 => b3.add 32)).map
                (fun b2 => update b2 s) := by
  have h : b.add 9 = ((b.add 32).bind fun b1 =>
      (b1.add 32).bind fun b2 => (b2.add 32).bind fun b3 => b3.add 32) := by
    simp [CharBuffer.add]
  exact ⟨h, fun s => by rw [h]⟩

/-- The buffer obtained by appending the bytes of `"ab\n"` to a fresh
buffer. -/
def c4buf : CharBuffer := (CharBuffer.new.addAll [97, 98, 10]).getD CharBuffer.new

lemma c4buf_inv : BufInv c4buf :=
  addAll_inv [97, 98, 10] CharBuffer.new c4buf (by decide) inv_new

/-- Claim C4: after appending `"ab\n"` to a fresh buffer the visible
lines are exactly one line holding `a`, `b` (length 2); the write
counter is still 0 and the pending-newline flag is set; and appending
any single further byte makes a second line visible. -/
theorem c4_deferred_newline :
    CharBuffer.new.addAll [97, 98, 10] = some c4buf
    ∧ c4buf.linesIter.map (fun l => l.chars.take l.len) = [[97, 98]]
    ∧ (c4buf.linesIter.getD 0 Line.new).len = 2
    ∧ c4buf.written = 0
    ∧ c4buf.advance_next = true
    ∧ ∀ c, ∃ b2, c4buf.add c = some b2 ∧ b2.linesIter.length = 2 := by
  refine ⟨by decide, by decide, by decide, by decide, by decide, ?_⟩
  intro c
  by_cases hc9 : c = 9
  · subst hc9
    exact ⟨(c4buf.add 9).getD CharBuffer.new, by decide, by decide⟩
  by_cases hc10 : c = 10
  · subst hc10
    exact ⟨(c4buf.add 10).getD CharBuffer.new, by decide, by decide⟩
  obtain ⟨b2, h2, hinv, hw, hf⟩ :=
    pushChar_some c4buf.checkAdvance c (inv_checkAdvance c4buf c4buf_inv)
  have hnotfull : ¬ c4buf.checkAdvance.currentLine.len = COLS := by decide
  rw [if_neg hnotfull] at hw
  have hw1 : c4buf.checkAdvance.written = 1 := by decide
  refine ⟨b2, ?_, ?_⟩
  · rw [CharBuffer.add, if_neg hc9, CharBuffer.addNT, if_neg hc10]
    exact h2
  · rw [linesIter_length, hw, hw1]
    decide

/-- The C1 wrap scenario: `ROWS + 1 = 28` one-character lines, byte
values 65..92, separated by single newline bytes. -/
def c1Input : List Nat :=
  [65, 10, 66, 10, 67, 10, 68, 10, 69, 10, 70, 10, 71, 10, 72, 10, 73, 10,
   74, 10, 75, 10, 76, 10, 77, 10, 78, 10, 79, 10, 80, 10, 81, 10, 82, 10,
   83, 10, 84, 10, 85, 10, 86, 10, 87, 10, 88, 10, 89, 10, 90, 10, 91, 10, 92]

/-- What the code actually shows after the C1 scenario: the final line
(92) first, then lines 2..27 of the input (66..91). -/
def c1Actual : List (List Nat) :=
  [[92], [66], [67], [68], [69], [70], [71], [72], [73], [74], [75], [76],
   [77], [78], [79], [80], [81], [82], [83], [84], [85], [86], [87], [88],
   [89], [90], [91]]

/-- The last `ROWS` input lines in chronological (oldest-to-newest)
order, as the claim demands. -/
def c1Chrono : List (List Nat) :=
  [[66], [67], [68], [69], [70], [71], [72], [73], [74], [75], [76], [77],
   [78], [79], [80], [81], [82], [83], [84], [85], [86], [87], [88], [89],
   [90], [91], [92]]

/-- Claim C1, evaluated at the failing input: appending `ROWS + 1`
newline-separated one-character lines and reading the visible lines
does drop the very first line, but does NOT produce chronological
order.  After this input `written = ROWS` exactly, `advance` has
already recycled storage slot 0 for the newest line (its threshold is
`written >= ROWS`), while the iterator still emits in storage order
from index 0 (its threshold is `written > ROWS`), so the newest line
comes out first, followed by the older lines. -/
theorem c1_wrap_order_eval :
    (CharBuffer.new.addAll c1Input).map
        (fun b => b.linesIter.map fun l => l.chars.take l.len) = some c1Actual
    ∧ (CharBuffer.new.addAll c1Input).map (fun b => b.written) = some ROWS
    ∧ c1Actual ≠ c1Chrono
    ∧ c1Actual.head? = some [92]
    ∧ c1Chrono.head? = some [66]
    ∧ c1Actual.toFinset = c1Chrono.toFinset := by
  refine ⟨by decide, by decide, by decide, by decide, by decide, by decide⟩

/-- The writes of one glyph: offset `x + j + (y + i) * BUFFER_WIDTH`
with value `color`, for exactly the glyph positions `(i, j)` whose font
bit is set. -/
lemma mem_putCharWrites (x y color c : Nat) (w : Nat × Nat) :
    w ∈ putCharWrites x y color c ↔
      ∃ i, i < 8 ∧ ∃ j, j < 8
        ∧ MSX_FONT.getD (c * 8 + i) 0 &&& (128 >>> j) ≠ 0
        ∧ w = (x + j + (y + i) * BUFFER_WIDTH, color) := by
  rw [putCharWrites]
  simp only [List.mem_flatMap, List.mem_filterMap, List.mem_range]
  constructor
  · rintro ⟨i, hi, j, hj, hf⟩
    by_cases hc : MSX_FONT.getD (c * 8 + i) 0 &&& (128 >>> j) ≠ 0
    · rw [if_pos hc] at hf
      cases hf
      exact ⟨i, hi, j, hj, hc, rfl⟩
    · rw [if_neg hc] at hf
      cases hf
  · rintro ⟨i, hi, j, hj, hc, rfl⟩
    exact ⟨i, hi, j, hj, by rw [if_pos hc]⟩

lemma findLast_mem (ws : List (Nat × Nat)) (p v : Nat)
    (h : findLast ws p = some v) : (p, v) ∈ ws := by
  induction ws with
  | nil => cases h
  | cons w rest ih =>
    rw [findLast] at h
    cases hr : findLast rest p with
    | some u =>
      rw [hr] at h
      cases h
      exact List.mem_cons_of_mem _ (ih hr)
    | none =>
      rw [hr] at h
      by_cases hw : w.1 = p
      · simp only [Option.orElse, hw, if_pos] at h
        cases h
        have hw2 : (p, w.2) = w := by
          obtain ⟨w1, w2⟩ := w
          simp only at hw
          rw [hw]
        rw [hw2]
        exact List.mem_cons_self _ _
      · simp [Option.orElse, hw] at h

lemma findLast_isSome (ws : List (Nat × Nat)) (p v : Nat)
    (h : (p, v) ∈ ws) : (findLast ws p).isSome := by
  induction ws with
  | nil => cases h
  | cons w rest ih =>
    rw [findLast]
    rcases List.mem_cons.mp h with hh | ht
    · cases hr : findLast rest p with
      | some u => simp [Option.orElse]
      | none =>
        have hw : w.1 = p := by rw [← hh]
        simp [Option.orElse, hw]
    · cases hr : findLast rest p with
      | some u => simp [Option.orElse]
      | none =>
        have := ih ht
        rw [hr] at this
        cases this

lemma findLast_eq_none (ws : List (Nat × Nat)) (p : Nat)
    (h : ∀ v, (p, v) ∉ ws) : findLast ws p = none := by
  induction ws with
  | nil => rfl
  | cons w rest ih =>
    rw [findLast, ih (fun v hv => h v (List.mem_cons_of_mem _ hv))]
    by_cases hw : w.1 = p
    · exfalso
      apply h w.2
      have hw2 : (p, w.2) = w := by
        obtain ⟨w1, w2⟩ := w
        simp only at hw
        rw [hw]
      rw [hw2]
      exact List.mem_cons_self _ _
    · simp [Option.orElse, hw]

/-- Replaying a write list whose writes all carry the same value paints
that value on exactly the written offsets and leaves all others to the
underlying surface. -/
lemma applyWrites_const (ws : List (Nat × Nat)) (color : Nat)
    (hws : ∀ w ∈ ws, w.2 = color) (s : Nat → Nat) (p : Nat) :
    applyWrites ws s p = if p ∈ ws.map Prod.fst then color else s p := by
  rw [applyWrites_eq_findLast]
  by_cases hp : p ∈ ws.map Prod.fst
  · rw [if_pos hp]
    obtain ⟨w, hw, hweq⟩ := List.mem_map.mp hp
    have hmem : (p, w.2) ∈ ws := by
      have hw2 : (p, w.2) = w := by
        obtain ⟨w1, w2⟩ := w
        simp only at hweq ⊢
        rw [hweq]
      rw [hw2]
      exact hw
    cases hfl : findLast ws p with
    | none =>
      have := findLast_isSome ws p w.2 hmem
      rw [hfl] at this
      cases this
    | some v =>
      have : ((p, v) : Nat × Nat).2 = color := hws _ (findLast_mem ws p v hfl)
      simpa using this
  · rw [if_neg hp,
        findLast_eq_none ws p (fun v hv => hp (List.mem_map.mpr ⟨(p, v), hv, rfl⟩))]
    rfl

/-- The writes of one string: a write belongs to `put_str` exactly when
the row is not clipped and the write comes from a cell whose byte is in
range and nonzero (zero cells contribute no writes at all). -/
lemma mem_putStrWrites (s : List Nat) (x y color : Nat) (w : Nat × Nat) :
    w ∈ putStrWrites s x y color ↔
      y ≤ DISPLAY_HEIGHT
      ∧ ∃ i, i < s.length ∧ i < DISPLAY_WIDTH / CHAR_WIDTH
        ∧ s.getD i 0 ≤ 255 ∧ s.getD i 0 ≠ 0
        ∧ w ∈ putCharWrites (CHAR_WIDTH * i + x) y color (s.getD i 0) := by
  rw [putStrWrites]
  by_cases hy : DISPLAY_HEIGHT < y
  · rw [if_pos hy]
    simp only [List.not_mem_nil, false_iff, not_and]
    intro hy2
    omega
  · rw [if_neg hy]
    simp only [List.mem_flatMap, List.mem_enum_iff_getElem?]
    constructor
    · rintro ⟨⟨i, cc⟩, hic, hw⟩
      rw [List.getElem?_take] at hic
      by_cases hlt : i < DISPLAY_WIDTH / CHAR_WIDTH
      · rw [if_pos hlt] at hic
        have hi : i < s.length := by
          by_contra hge
          rw [List.getElem?_eq_none (by omega)] at hic
          cases hic
        have hcc : s.getD i 0 = cc := by
          rw [List.getD_eq_getElem?_getD, hic]
          rfl
        simp only at hw
        by_cases hcond : cc ≤ 255 ∧ cc ≠ 0
        · rw [if_pos hcond] at hw
          exact ⟨by omega, i, hi, hlt, by rw [hcc]; exact hcond.1,
            by rw [hcc]; exact hcond.2, by rw [hcc]; exact hw⟩
        · rw [if_neg hcond] at hw
          cases hw
      · rw [if_neg hlt] at hic
        cases hic
    · rintro ⟨hy2, i, hi, hlt, h255, hnz, hw⟩
      refine ⟨(i, s.getD i 0), ?_, ?_⟩
      · rw [List.getElem?_take, if_pos hlt, List.getElem?_eq_getElem hi,
          List.getD_eq_getElem _ _ hi]
      · simp only
        rw [if_pos ⟨h255, hnz⟩]
        exact hw

/-- Every write of the glyph pass of `update` decomposes as a glyph
pixel of some visible row `row < ROWS` and column
`col < DISPLAY_WIDTH / CHAR_WIDTH`, at glyph offsets `i, j < 8`, and
carries the fixed foreground color. -/
lemma mem_updateGlyphWrites (b : CharBuffer) (w : Nat × Nat)
    (h : w ∈ updateGlyphWrites b) :
    ∃ row col i j, row < ROWS ∧ col < DISPLAY_WIDTH / CHAR_WIDTH
      ∧ i < 8 ∧ j < 8
      ∧ w.1 = CHAR_WIDTH * col + j + (row * CHAR_HEIGHT + i) * BUFFER_WIDTH
      ∧ w.2 = 0xffffffff := by
  rw [updateGlyphWrites] at h
  obtain ⟨⟨row, line⟩, hrl, hw⟩ := List.mem_flatMap.mp h
  have hrow : row < ROWS := by
    have := List.mem_enum_iff_getElem?.mp hrl
    have hlen : row < b.linesIter.length := by
      by_contra hge
      rw [List.getElem?_eq_none (by omega)] at this
      cases this
    rw [linesIter_length] at hlen
    omega
  simp only at hw
  obtain ⟨-, i0, hi0, hlt, -, -, hpc⟩ := (mem_putStrWrites _ _ _ _ _).mp hw
  obtain ⟨i, hi, j, hj, -, hweq⟩ := (mem_putCharWrites _ _ _ _ _).mp hpc
  refine ⟨row, i0, i, j, hrow, hlt, hi, hj, ?_, ?_⟩
  · rw [hweq]
    simp only []
    omega
  · rw [hweq]

/-- Claim C10: every pixel store of a render — the clear pass and all
glyph painting — lands inside the `BUFFER_WIDTH × DISPLAY_HEIGHT` word
region at the surface base: at most `ROWS = 27` rows put the highest
painted pixel row at `26 * 10 + 7 = 267 < 272`, and at most 80 columns
put the rightmost painted column at `79 * 6 + 7 = 481 < 512`. -/
theorem c10_render_in_bounds (b : CharBuffer) (w : Nat × Nat)
    (h : w ∈ updateWrites b) : w.1 < BUFFER_WIDTH * DISPLAY_HEIGHT := by
  rw [updateWrites] at h
  rcases List.mem_append.mp h with hc | hg
  · rw [clearWrites] at hc
    obtain ⟨i, hi, hweq⟩ := List.mem_map.mp hc
    rw [List.mem_range] at hi
    rw [← hweq]
    exact hi
  · obtain ⟨row, col, i, j, hrow, hcol, hi, hj, hoff, -⟩ :=
      mem_updateGlyphWrites b w hg
    rw [hoff, BUFFER_WIDTH, DISPLAY_HEIGHT, CHAR_WIDTH, CHAR_HEIGHT]
    rw [rows_eq] at hrow
    have hcol' : col < 80 := hcol
    omega

theorem c10_render_in_bounds_witness :
    ((0, 0) : Nat × Nat) ∈ updateWrites CharBuffer.new
    ∧ (0 : Nat) < BUFFER_WIDTH * DISPLAY_HEIGHT := by
  have hmem : ((0, 0) : Nat × Nat) ∈ updateWrites CharBuffer.new := by
    rw [updateWrites, clearWrites]
    apply List.mem_append_left
    exact List.mem_map.mpr ⟨0, List.mem_range.mpr (by decide), rfl⟩
  exact ⟨hmem, c10_render_in_bounds CharBuffer.new (0, 0) hmem⟩

/-- Claim C9: a glyph always paints inside the 8-wide, 8-tall pixel
region at its cell origin, while cells advance by `CHAR_WIDTH = 6`
horizontally and `CHAR_HEIGHT = 10` vertically.  Hence a glyph with set
bits in its rightmost columns (here byte 1, whose row 2 is `0xa5` with
bit 0 set) paints at column offset 7, inside the horizontally adjacent
cell; and every glyph write of a render lands at a pixel row whose
offset within its own 10-row cell is below 8, so the bottom two pixel
rows of every cell are never painted. -/
theorem c9_glyph_cell_overlap :
    (CHAR_WIDTH = 6 ∧ CHAR_HEIGHT = 10)
    ∧ (∀ x y color c w, w ∈ putCharWrites x y color c →
        ∃ i, i < 8 ∧ ∃ j, j < 8 ∧ w.1 = x + j + (y + i) * BUFFER_WIDTH)
    ∧ ((7 + 2 * BUFFER_WIDTH, 0xffffffff) ∈ putCharWrites 0 0 0xffffffff 1
        ∧ CHAR_WIDTH ≤ 7)
    ∧ (∀ b w, w ∈ updateGlyphWrites b →
        (w.1 / BUFFER_WIDTH) % CHAR_HEIGHT < 8) := by
  refine ⟨⟨rfl, rfl⟩, ?_,
    ⟨(mem_putCharWrites 0 0 0xffffffff 1 _).mpr
      ⟨2, by decide, 7, by decide, by decide, by decide⟩, by decide⟩, ?_⟩
  · intro x y color c w hw
    obtain ⟨i, hi, j, hj, -, hweq⟩ := (mem_putCharWrites _ _ _ _ _).mp hw
    exact ⟨i, hi, j, hj, by rw [hweq]⟩
  · intro b w hw
    obtain ⟨row, col, i, j, hrow, hcol, hi, hj, hoff, -⟩ :=
      mem_updateGlyphWrites b w hw
    have hoff' : w.1 = 6 * col + j + (row * 10 + i) * 512 := hoff
    have hcol' : col < 80 := hcol
    show (w.1 / 512) % 10 < 8
    rw [hoff']
    have h6 : 6 * col + j < 512 := by omega
    have hdiv : (6 * col + j + (row * 10 + i) * 512) / 512 = row * 10 + i := by
      rw [Nat.add_mul_div_right _ _ (by norm_num : (0:Nat) < 512),
        Nat.div_eq_of_lt h6, Nat.zero_add]
    rw [hdiv]
    omega

set_option maxRecDepth 20000 in
theorem c9_glyph_cell_overlap_witness :
    (∃ i, i < 8 ∧ ∃ j, j < 8
      ∧ ((7 + 2 * BUFFER_WIDTH, 0xffffffff) : Nat × Nat).1
          = 0 + j + (0 + i) * BUFFER_WIDTH)
    ∧ (((1025, 0xffffffff) : Nat × Nat).1 / BUFFER_WIDTH) % CHAR_HEIGHT < 8 := by
  constructor
  · exact c9_glyph_cell_overlap.2.1 0 0 0xffffffff 1 _
      ((mem_putCharWrites 0 0 0xffffffff 1 _).mpr
        ⟨2, by decide, 7, by decide, by decide, by decide⟩)
  · exact c9_glyph_cell_overlap.2.2.2 c4buf (1025, 0xffffffff) (by decide)

/-- Claim C7: glyph painting.  For a cell byte `c` the painted surface
shows the foreground color exactly at the pixels whose font bit (table
entry `c * 8 + row`, tested under the mask with bit 7 leftmost) is set,
and is untouched elsewhere; `put_str` writes are exactly the glyph
writes of its in-range nonzero cells, so cells holding byte 0 paint
nothing; and a render is the clear pass followed by those glyph
writes. -/
theorem c7_glyph_bit_postcondition (x y color c : Nat) (hc : c ≤ 255) :
    (∀ (s : Nat → Nat) (p : Nat),
      ((∃ i, i < 8 ∧ ∃ j, j < 8
          ∧ MSX_FONT.getD (c * 8 + i) 0 &&& (128 >>> j) ≠ 0
          ∧ p = x + j + (y + i) * BUFFER_WIDTH) →
        applyWrites (putCharWrites x y color c) s p = color)
      ∧ ((∀ i, i < 8 → ∀ j, j < 8 →
            MSX_FONT.getD (c * 8 + i) 0 &&& (128 >>> j) ≠ 0 →
            p ≠ x + j + (y + i) * BUFFER_WIDTH) →
        applyWrites (putCharWrites x y color c) s p = s p))
    ∧ (∀ (cs : List Nat) (w : Nat × Nat),
        w ∈ putStrWrites cs x y color ↔
          y ≤ DISPLAY_HEIGHT
          ∧ ∃ i, i < cs.length ∧ i < DISPLAY_WIDTH / CHAR_WIDTH
            ∧ cs.getD i 0 ≤ 255 ∧ cs.getD i 0 ≠ 0
            ∧ w ∈ putCharWrites (CHAR_WIDTH * i + x) y color (cs.getD i 0))
    ∧ (∀ b : CharBuffer, updateWrites b = clearWrites 0 ++ updateGlyphWrites b) := by
  have hall : ∀ w ∈ putCharWrites x y color c, w.2 = color := by
    intro w hw
    obtain ⟨i, hi, j, hj, -, hweq⟩ := (mem_putCharWrites _ _ _ _ _).mp hw
    rw [hweq]
  refine ⟨fun s p => ⟨?_, ?_⟩,
    fun cs w => mem_putStrWrites cs x y color w, fun b => rfl⟩
  · rintro ⟨i, hi, j, hj, hbit, hp⟩
    rw [applyWrites_const _ color hall s p, if_pos ?_]
    exact List.mem_map.mpr
      ⟨(x + j + (y + i) * BUFFER_WIDTH, color),
        (mem_putCharWrites _ _ _ _ _).mpr ⟨i, hi, j, hj, hbit, rfl⟩, hp.symm⟩
  · intro hnone
    rw [applyWrites_const _ color hall s p, if_neg ?_]
    intro hmem
    obtain ⟨w, hw, hweq⟩ := List.mem_map.mp hmem
    obtain ⟨i, hi, j, hj, hbit, hweq2⟩ := (mem_putCharWrites _ _ _ _ _).mp hw
    apply hnone i hi j hj hbit
    rw [← hweq, hweq2]

theorem c7_glyph_bit_postcondition_witness :
    applyWrites (putCharWrites 0 0 0xffffffff 1) (fun _ => 0) 1031 = 0xffffffff
    ∧ applyWrites (putCharWrites 0 0 0xffffffff 1) (fun _ => 0) 0 = 0 := by
  constructor
  · exact ((c7_glyph_bit_postcondition 0 0 0xffffffff 1 (by decide)).1 _ 1031).1
      ⟨2, by decide, 7, by decide, by decide, by decide⟩
  · exact ((c7_glyph_bit_postcondition 0 0 0xffffffff 1 (by decide)).1 _ 0).2 (by decide)
